import Mathlib

/-!
Verification of the CoffeeDashboard data pipeline (src/CoffeeDashboard/dashboard.py).

The development shallowly embeds the four pipeline stages that the claims are
about: `load_data_optimized` (MongoDB aggregation pipeline plus the per-product
Python loop), `apply_clustering_improved`, `filter_by_date_range_optimized`,
`categorize_price_segment`, and `calculate_segment_analysis` (the second,
shadowing definition at lines 837-878, which is the one the script calls).

Modelling conventions:
  * A pandas DataFrame is a `List` of rows; a column operation is a map over
    the list.  Presentation-only columns (`stock_history_str`, `source_file`)
    are omitted.
  * Machine numbers are `Int`/`Nat`/`ℚ`.  Quantities in the source data are
    integers (possibly absent), so an event field is `Option Int`
    (`none` models a missing/null BSON field, resolved by `$ifNull` /
    `dict.get(..., 0)`).  Prices may be fractional before `$round`, hence `ℚ`.
  * `datetime.strptime(s, s2)` with the year-month-day format is embedded by
    `parseDate`, returning `none` exactly when the Python call raises.
    Python `date` objects compare chronologically; for dates produced by the
    parser (month ≤ 12, day ≤ 31) this coincides with the numeric key
    `year*10000 + month*100 + day`, which is how comparisons are embedded.
  * The Mongo cursor is the list of documents passing the `$match` stage;
    `load_data_optimized` takes an `Except` value: `.error` models the
    collection connection (or the aggregation) raising, `.ok docs` a
    successful cursor over `docs`.
-/

namespace CoffeeDashboard

/-- Calendar date, as produced by `datetime.strptime(entry['date'], '%Y-%m-%d').date()`. -/
structure Date where
  year : Nat
  month : Nat
  day : Nat
deriving DecidableEq, Repr

/-- Numeric key that orders valid dates chronologically (month ≤ 12, day ≤ 31). -/
def Date.key (d : Date) : Nat := d.year * 10000 + d.month * 100 + d.day

/-- Leap-year rule used by Python's `datetime` validation. -/
def isLeapYear (y : Nat) : Bool := (y % 4 == 0 && y % 100 != 0) || (y % 400 == 0)

/-- Number of days of a month, as validated by `datetime`. -/
def daysInMonth (y m : Nat) : Nat :=
  if m = 2 then (if isLeapYear y then 29 else 28)
  else if m = 4 ∨ m = 6 ∨ m = 9 ∨ m = 11 then 30
  else 31

/-- Split a character list on a separator character (groups between separators). -/
def splitOnChar (c : Char) (l : List Char) : List (List Char) :=
  l.foldr (fun ch acc =>
    if ch = c then [] :: acc
    else match acc with
      | [] => [[ch]]
      | g :: gs => (ch :: g) :: gs) [[]]

/-- Numeric value of a digit string. -/
def digitsVal (l : List Char) : Nat :=
  l.foldl (fun n ch => 10 * n + (ch.toNat - '0'.toNat)) 0

/-- Check that a field of a date string is all digits with length in the given range. -/
def digitField (l : List Char) (lo hi : Nat) : Bool :=
  lo ≤ l.length && l.length ≤ hi && l.all Char.isDigit

/-- Embedding of `datetime.strptime(s, '%Y-%m-%d').date()`: `some` on a valid
year-month-day string (1-4 digit year ≥ 1, 1-2 digit month 1-12, 1-2 digit
day valid for the month, calendar-checked), `none` when the call raises. -/
def parseDate (s : String) : Option Date :=
  match splitOnChar '-' s.data with
  | [ys, ms, ds] =>
    if digitField ys 1 4 && digitField ms 1 2 && digitField ds 1 2 then
      let y := digitsVal ys
      let m := digitsVal ms
      let d := digitsVal ds
      if 1 ≤ y ∧ 1 ≤ m ∧ m ≤ 12 ∧ 1 ≤ d ∧ d ≤ daysInMonth y m then
        some ⟨y, m, d⟩
      else none
    else none
  | _ => none

/-- One element of a product's `stock_history` array. `none` quantity fields
model missing/null BSON values. -/
structure StockEvent where
  date : String
  stock_decreased : Option Int
  stock_increased : Option Int
deriving DecidableEq, Repr

/-- A raw MongoDB document as described by the external interface:
`price` is `none` when the field is absent. -/
structure RawDoc where
  id : String
  name : String
  category : String
  price : Option ℚ
  promotion : String
  stock_history : List StockEvent
deriving DecidableEq, Repr

/-- Clamped units sold of one event: the Mongo expression
`max(ifNull(entry.stock_decreased, 0), 0)`, identical in value to the Python
`max(0, float(entry.get('stock_decreased', 0)))` used when re-deriving. -/
def clampDec (ev : StockEvent) : Int := max 0 (ev.stock_decreased.getD 0)

/-- Clamped units restocked of one event (same clamping as `clampDec`). -/
def clampInc (ev : StockEvent) : Int := max 0 (ev.stock_increased.getD 0)

/-- Sum of clamped units sold over an event list. -/
def sumDec (l : List StockEvent) : Int := (l.map clampDec).sum

/-- Sum of clamped units restocked over an event list. -/
def sumInc (l : List StockEvent) : Int := (l.map clampInc).sum

/-- Mongo `$round: [x, 0]` (round half to even). -/
def mongoRound (q : ℚ) : Int :=
  let f := ⌊q⌋
  let r := q - (f : ℚ)
  if r < 1 / 2 then f
  else if 1 / 2 < r then f + 1
  else if f % 2 = 0 then f else f + 1

/-- One row of the DataFrame built by `load_data_optimized`. -/
structure LoadedRecord where
  id : String
  name : String
  category : String
  price : Int
  promotion : String
  total_sold : Int
  revenue : Int
  total_stock_increased : Int
  stock_revenue : Int
  stock_history : List StockEvent
deriving DecidableEq, Repr

/-- Processing of one cursor document by `load_data_optimized`: the `$match`
stage (`price` present with `0 < price < 1000000000`), the `$project` stage
(`$round` of price, `$slice` of `stock_history` to 100), the `$addFields`
sums, and the Python loop body (1000 price floor, clamp of the totals,
`stock_history[:50]`, revenue products).  `none` models the document being
filtered out by `$match`.  The broad per-product `except: continue` catches
nothing here: the only raising call in the loop body, `strptime`, already has
its own inner `except`. -/
def processDoc (doc : RawDoc) : Option LoadedRecord :=
  match doc.price with
  | none => none
  | some p =>
    if 0 < p ∧ p < 1000000000 then
      let hist100 := doc.stock_history.take 100
      let price : Int := max 1000 (mongoRound p)
      let total_sold : Int := max 0 (sumDec hist100)
      let total_inc : Int := max 0 (sumInc hist100)
      some ⟨doc.id, doc.name, doc.category, price, doc.promotion,
        total_sold, price * total_sold, total_inc, price * total_inc,
        hist100.take 50⟩
    else none

/-- The `all_dates` set of `load_data_optimized`: every parseable event date of
every retained (first-50-of-first-100) event of every accepted document.
Collected as a list; `min`/`max` do not care about duplicates. -/
def trackedDates (docs : List RawDoc) : List Date :=
  docs.flatMap fun doc =>
    match processDoc doc with
    | some r => r.stock_history.filterMap (fun ev => parseDate ev.date)
    | none => []

/-- Fold computing the chronologically smallest date of `d0 :: l`. -/
def minKeyDate (d0 : Date) (l : List Date) : Date :=
  l.foldl (fun a b => if b.key < a.key then b else a) d0

/-- Fold computing the chronologically largest date of `d0 :: l`. -/
def maxKeyDate (d0 : Date) (l : List Date) : Date :=
  l.foldl (fun a b => if a.key < b.key then b else a) d0

/-- Fallback window start `date(2025, 3, 5)`. -/
def defaultMinDate : Date := ⟨2025, 3, 5⟩

/-- Fallback window end `date(2025, 5, 25)`. -/
def defaultMaxDate : Date := ⟨2025, 5, 25⟩

/-- The triple returned by `load_data_optimized`. -/
structure LoadResult where
  records : List LoadedRecord
  min_date : Date
  max_date : Date
deriving DecidableEq, Repr

/-- Embedding of `load_data_optimized`: on a connection/aggregation error the
function catches the exception (reporting it only through `st.error`) and
returns an empty frame with the default window; otherwise it processes the
cursor documents and computes the global min/max tracked date (with the same
default window when no date was tracked). -/
def load_data_optimized (src : Except String (List RawDoc)) : LoadResult :=
  match src with
  | .error _ => ⟨[], defaultMinDate, defaultMaxDate⟩
  | .ok docs =>
    match trackedDates docs with
    | [] => ⟨docs.filterMap processDoc, defaultMinDate, defaultMaxDate⟩
    | d :: ds => ⟨docs.filterMap processDoc, minKeyDate d ds, maxKeyDate d ds⟩

/-- Price-segment labels appearing in the script.  The constructors stand for
the Vietnamese strings written by the source: `thap` = low, `trungBinh` =
medium, `cao` = high, `khongXacDinh` = undetermined. -/
inductive Segment where
  | thap
  | trungBinh
  | cao
  | khongXacDinh
deriving DecidableEq, Repr

/-- The four labels in the order pandas `groupby(sort=True)` sorts them: the
codepoint order of the label strings is `'Cao'` < `'Không xác định'` <
`'Thấp'` < `'Trung bình'`. -/
def sortedSegments : List Segment :=
  [Segment.cao, Segment.khongXacDinh, Segment.thap, Segment.trungBinh]

/-- A row of the working DataFrame after `apply_clustering_improved` added the
`quantity_sold`, `stock_remaining` and `segment` columns. -/
structure Row where
  id : String
  name : String
  category : String
  price : Int
  promotion : String
  total_sold : Int
  revenue : Int
  total_stock_increased : Int
  stock_revenue : Int
  stock_history : List StockEvent
  quantity_sold : Int
  stock_remaining : Int
  segment : Segment
deriving DecidableEq, Repr

/-- The present (non-NaN) entries of a possibly-missing price column; pandas
`quantile`, `min`, `max` and `nunique` all skip NaN. -/
def presentPrices (ps : List (Option ℚ)) : List ℚ := ps.filterMap id

/-- Minimum of a rational list (`0` for the empty list, which never occurs at
call sites). -/
def listMinQ : List ℚ → ℚ
  | [] => 0
  | x :: xs => xs.foldl min x

/-- Maximum of a rational list (`0` for the empty list). -/
def listMaxQ : List ℚ → ℚ
  | [] => 0
  | x :: xs => xs.foldl max x

/-- pandas `Series.quantile(q)` with the default linear interpolation: sort
the values, let `h = q * (n - 1)`, and interpolate between the values at
positions `⌊h⌋` and `⌊h⌋ + 1`. -/
def quantileLinear (xs : List ℚ) (q : ℚ) : ℚ :=
  let s := xs.insertionSort (· ≤ ·)
  if s.length = 0 then 0
  else
    let h : ℚ := q * ((s.length : ℚ) - 1)
    let lo := (⌊h⌋).toNat
    let vlo := s.getD lo 0
    vlo + (h - (⌊h⌋ : ℚ)) * (s.getD (lo + 1) vlo - vlo)

/-- The row of the clustered frame built from a loaded record and its segment:
`apply_clustering_improved` copies every column and adds
`quantity_sold = total_sold`, `stock_remaining = total_stock_increased`. -/
def toRow (lr : LoadedRecord) (s : Segment) : Row :=
  ⟨lr.id, lr.name, lr.category, lr.price, lr.promotion, lr.total_sold,
    lr.revenue, lr.total_stock_increased, lr.stock_revenue, lr.stock_history,
    lr.total_sold, lr.total_stock_increased, s⟩

/-- The threshold classification of `apply_clustering_improved` (0.33 / 0.67
quantiles).  Prices are integers here, so the `pd.isna` branch never fires. -/
def classify33 (q33 q67 : ℚ) (price : Int) : Segment :=
  if (price : ℚ) ≤ q33 then Segment.thap
  else if (price : ℚ) ≤ q67 then Segment.trungBinh
  else Segment.cao

/-- Embedding of `apply_clustering_improved` (dashboard.py lines 171-208):
empty frame returned unchanged; with more than one row and more than one
distinct price, segment by the 0.33/0.67 price quantiles; otherwise every row
gets the medium label.  The surrounding `try` never fires in this model. -/
def apply_clustering_improved (df : List LoadedRecord) : List Row :=
  if df.isEmpty then []
  else if 1 < df.length ∧ 1 < ((df.map (fun r => r.price)).dedup).length then
    df.map fun lr => toRow lr (classify33
      (quantileLinear (df.map (fun r => (r.price : ℚ))) (33 / 100))
      (quantileLinear (df.map (fun r => (r.price : ℚ))) (67 / 100))
      lr.price)
  else df.map fun lr => toRow lr Segment.trungBinh

/-- The segment column written by `categorize_price_segment` (dashboard.py
lines 791-830) as a function of the price column, the only column it reads.
First guard: empty frame or all-NaN prices.  Then the 0.25/0.75 quantile
thresholds; if they coincide, the min/max midpoint fallback (where the
`lambda` maps NaN to the high label, since `NaN < mid` is false); if min and
max also coincide, every row gets the medium label. -/
def categorizeSegments (ps : List (Option ℚ)) : List Segment :=
  if (presentPrices ps).isEmpty then ps.map fun _ => Segment.khongXacDinh
  else if quantileLinear (presentPrices ps) (1 / 4) =
      quantileLinear (presentPrices ps) (3 / 4) then
    if listMinQ (presentPrices ps) = listMaxQ (presentPrices ps) then
      ps.map fun _ => Segment.trungBinh
    else
      ps.map fun p? =>
        match p? with
        | none => Segment.cao
        | some p =>
          if p < (listMinQ (presentPrices ps) + listMaxQ (presentPrices ps)) / 2
          then Segment.thap else Segment.cao
  else
    ps.map fun p? =>
      match p? with
      | none => Segment.khongXacDinh
      | some p =>
        if p ≤ quantileLinear (presentPrices ps) (1 / 4) then Segment.thap
        else if p ≤ quantileLinear (presentPrices ps) (3 / 4) then
          Segment.trungBinh
        else Segment.cao

/-- `categorize_price_segment` on the working frame: rewrite the segment
column from the price column, keep everything else.  Prices in this frame are
integers (never NaN). -/
def categorize_price_segment (df : List Row) : List Row :=
  List.zipWith (fun r s => { r with segment := s }) df
    (categorizeSegments (df.map fun r => some ((r.price : ℚ))))

/-- The predicate of `filter_stock_history`: the entry's date parses and lies
in the closed window.  (Entries are always dicts with a date key here.) -/
def eventInRange (s e : Date) (ev : StockEvent) : Bool :=
  match parseDate ev.date with
  | some d => decide (s.key ≤ d.key ∧ d.key ≤ e.key)
  | none => false

/-- `filter_stock_history` inside `filter_by_date_range_optimized`. -/
def filter_stock_history (s e : Date) (l : List StockEvent) : List StockEvent :=
  l.filter (eventInRange s e)

/-- The per-row work of `filter_by_date_range_optimized`: restrict the event
history to the window and recompute `quantity_sold`, `stock_remaining`,
`revenue` and `stock_revenue` from the restricted history (`recalculate_metrics`). -/
def recalcRow (s e : Date) (r : Row) : Row :=
  { r with
    stock_history := filter_stock_history s e r.stock_history,
    quantity_sold := sumDec (filter_stock_history s e r.stock_history),
    stock_remaining := sumInc (filter_stock_history s e r.stock_history),
    revenue := r.price * sumDec (filter_stock_history s e r.stock_history),
    stock_revenue := r.price * sumInc (filter_stock_history s e r.stock_history) }

/-- Embedding of `filter_by_date_range_optimized` (dashboard.py lines
211-264): empty frame returned unchanged, otherwise the row-wise filter and
recomputation on a copy.  The surrounding `try` never fires in this model. -/
def filter_by_date_range_optimized (df : List Row) (s e : Date) : List Row :=
  if df.isEmpty then df else df.map (recalcRow s e)

/-- The `display_mode` selector ("Bán hàng" = sales, "Tồn kho" = stock). -/
inductive Mode where
  | banHang
  | tonKho
deriving DecidableEq, Repr

/-- The metric summed into the output `revenue` column for a mode (in stock
mode the source renames `stock_revenue` to `revenue`). -/
def modeRevenue : Mode → Row → Int
  | Mode.banHang, r => r.revenue
  | Mode.tonKho, r => r.stock_revenue

/-- The metric summed into the output `quantity_sold` column for a mode (in
stock mode the source renames `stock_remaining` to `quantity_sold`). -/
def modeQuantity : Mode → Row → Int
  | Mode.banHang, r => r.quantity_sold
  | Mode.tonKho, r => r.stock_remaining

/-- One output row of `calculate_segment_analysis`. -/
structure SegStats where
  segment : Segment
  revenue : Int
  quantity_sold : Int
  revenue_pct : ℚ
  quantity_pct : ℚ
deriving DecidableEq, Repr

/-- Sum of a metric over the rows of one segment group. -/
def segSum (df : List Row) (f : Row → Int) (s : Segment) : Int :=
  ((df.filter fun r => decide (r.segment = s)).map f).sum

/-- The group keys of `df.groupby('segment')`: the labels present in the
frame, in pandas' sorted label order. -/
def groupKeys (df : List Row) : List Segment :=
  sortedSegments.filter fun s => df.any fun r => decide (r.segment = s)

/-- Embedding of the second (active) `calculate_segment_analysis`
(dashboard.py lines 837-878): empty frame gives an empty result; otherwise
group by segment, sum the mode's two metrics, and append the two percentage
columns guarded by `total > 0`. -/
def calculate_segment_analysis (df : List Row) (mode : Mode) : List SegStats :=
  if df.isEmpty then []
  else
    (groupKeys df).map fun s =>
      ⟨s, segSum df (modeRevenue mode) s, segSum df (modeQuantity mode) s,
        if 0 < ((groupKeys df).map (segSum df (modeRevenue mode))).sum
        then (segSum df (modeRevenue mode) s : ℚ) /
          (((groupKeys df).map (segSum df (modeRevenue mode))).sum : ℚ) * 100
        else 0,
        if 0 < ((groupKeys df).map (segSum df (modeQuantity mode))).sum
        then (segSum df (modeQuantity mode) s : ℚ) /
          (((groupKeys df).map (segSum df (modeQuantity mode))).sum : ℚ) * 100
        else 0⟩

/-! Concrete inputs used to instantiate the theorems below. -/

/-- Four distinct prices; the 0.25/0.75 quantiles are 1.75 and 3.25. -/
def c1ps : List (Option ℚ) := [some 1, some 2, some 3, some 4]

/-- A segmented sales row in the low price segment. -/
def c2row1 : Row := ⟨"p1", "A", "coffee", 1000, "", 5, 5000, 0, 0, [], 5, 0, Segment.thap⟩

/-- A segmented sales row in the high price segment. -/
def c2row2 : Row := ⟨"p2", "B", "coffee", 9000, "", 10, 90000, 0, 0, [], 10, 0, Segment.cao⟩

/-- A two-segment frame (low and high present, medium absent). -/
def c2df : List Row := [c2row1, c2row2]

/-- The first rollup row of `c2df` in sales mode. -/
def c2stat : SegStats := ⟨Segment.cao, 90000, 10, 1800 / 19, 200 / 3⟩

/-- A document with 101 events, each selling one unit. -/
def c3doc : RawDoc := ⟨"p3", "n", "c", some 1000, "", List.replicate 101 ⟨"", some 1, some 0⟩⟩

/-- A one-event document. -/
def c3wdoc : RawDoc := ⟨"p3w", "n", "c", some 1000, "", [⟨"2025-03-05", some 2, some 3⟩]⟩

/-- The record `load_data_optimized` builds from `c3wdoc`. -/
def c3wrec : LoadedRecord :=
  ⟨"p3w", "n", "c", 1000, "", 2, 2000, 3, 3000, [⟨"2025-03-05", some 2, some 3⟩]⟩

/-- A document whose only event has the unparseable date of the spec's example. -/
def c4doc : RawDoc := ⟨"p4", "n", "c", some 1000, "", [⟨"2025-13-40", some 3, some 0⟩]⟩

/-- A document with one valid-date event. -/
def c4wdoc : RawDoc := ⟨"p4w", "n", "c", some 1000, "", [⟨"2025-03-05", some 1, some 0⟩]⟩

/-- An event with an unparseable date and nonzero quantities. -/
def c4wev : StockEvent := ⟨"2025-13-40", some 3, some 2⟩

/-- A working row with one in-window event and one bad-date event. -/
def c5row : Row :=
  ⟨"p5", "n", "c", 2000, "", 1, 2000, 0, 0,
    [⟨"2025-03-10", some 1, some 0⟩, ⟨"2025-13-40", some 9, some 9⟩], 1, 0, Segment.trungBinh⟩

/-- Window start used with `c5row`. -/
def c5start : Date := ⟨2025, 3, 1⟩

/-- Window end used with `c5row`. -/
def c5stop : Date := ⟨2025, 3, 31⟩

/-- A collection whose single document mixes a bad-date and a good-date event. -/
def c6docs : List RawDoc :=
  [⟨"p6", "n", "c", some 1000, "",
    [⟨"2025-13-40", some 3, some 0⟩, ⟨"2025-03-05", some 1, some 0⟩]⟩]

/-- A collection with one short, fully-parseable document. -/
def c6wdocs : List RawDoc := [⟨"p6w", "n", "c", some 1000, "", [⟨"2025-03-05", some 2, some 1⟩]⟩]

/-- A document whose price 250 is below the 1000 floor. -/
def c8doc : RawDoc := ⟨"p8", "n", "c", some 250, "", []⟩

/-- The record `load_data_optimized` builds from `c8doc`. -/
def c8rec : LoadedRecord := ⟨"p8", "n", "c", 1000, "", 0, 0, 0, 0, []⟩

/-- A short document with a missing and a negative quantity field. -/
def c10doc : RawDoc :=
  ⟨"p10", "n", "c", some 1000, "", [⟨"x", some 5, none⟩, ⟨"y", some (-2), some 4⟩]⟩

/-- The record `load_data_optimized` builds from `c10doc`. -/
def c10rec : LoadedRecord :=
  ⟨"p10", "n", "c", 1000, "", 5, 5000, 4, 4000, [⟨"x", some 5, none⟩, ⟨"y", some (-2), some 4⟩]⟩

/-! Helper lemmas shared by the claim theorems. -/

theorem clampDec_nonneg (ev : StockEvent) : 0 ≤ clampDec ev := le_max_left 0 _

theorem clampInc_nonneg (ev : StockEvent) : 0 ≤ clampInc ev := le_max_left 0 _

theorem sumDec_nonneg (l : List StockEvent) : 0 ≤ sumDec l := by
  refine List.sum_nonneg ?_
  intro x hx
  obtain ⟨ev, _, rfl⟩ := List.mem_map.mp hx
  exact clampDec_nonneg ev

theorem sumInc_nonneg (l : List StockEvent) : 0 ≤ sumInc l := by
  refine List.sum_nonneg ?_
  intro x hx
  obtain ⟨ev, _, rfl⟩ := List.mem_map.mp hx
  exact clampInc_nonneg ev

theorem sumDec_cons (ev : StockEvent) (l : List StockEvent) :
    sumDec (ev :: l) = clampDec ev + sumDec l := by
  simp [sumDec]

theorem sumInc_cons (ev : StockEvent) (l : List StockEvent) :
    sumInc (ev :: l) = clampInc ev + sumInc l := by
  simp [sumInc]

theorem processDoc_spine (doc : RawDoc) (r : LoadedRecord) (h : processDoc doc = some r) :
    ∃ p, doc.price = some p ∧ (0 < p ∧ p < 1000000000) ∧
      r = ⟨doc.id, doc.name, doc.category, max 1000 (mongoRound p), doc.promotion,
        max 0 (sumDec (doc.stock_history.take 100)),
        max 1000 (mongoRound p) * max 0 (sumDec (doc.stock_history.take 100)),
        max 0 (sumInc (doc.stock_history.take 100)),
        max 1000 (mongoRound p) * max 0 (sumInc (doc.stock_history.take 100)),
        (doc.stock_history.take 100).take 50⟩ := by
  unfold processDoc at h
  cases hp : doc.price with
  | none => rw [hp] at h; cases h
  | some p =>
    rw [hp] at h
    simp only at h
    split at h
    · exact ⟨p, rfl, by assumption, (Option.some.inj h).symm⟩
    · cases h

theorem foldlMin_le_init (t : List ℚ) : ∀ a : ℚ, t.foldl min a ≤ a := by
  induction t with
  | nil => intro a; exact le_refl a
  | cons b u ih =>
    intro a
    exact le_trans (ih (min a b)) (min_le_left a b)

theorem foldlMin_le_mem (t : List ℚ) : ∀ a x : ℚ, x ∈ t → t.foldl min a ≤ x := by
  induction t with
  | nil => intro a x hx; cases hx
  | cons b u ih =>
    intro a x hx
    rcases List.mem_cons.mp hx with rfl | hx
    · exact le_trans (foldlMin_le_init u (min a x)) (min_le_right a x)
    · exact ih (min a b) x hx

theorem foldlMax_init_le (t : List ℚ) : ∀ a : ℚ, a ≤ t.foldl max a := by
  induction t with
  | nil => intro a; exact le_refl a
  | cons b u ih =>
    intro a
    exact le_trans (le_max_left a b) (ih (max a b))

theorem foldlMax_mem_le (t : List ℚ) : ∀ a x : ℚ, x ∈ t → x ≤ t.foldl max a := by
  induction t with
  | nil => intro a x hx; cases hx
  | cons b u ih =>
    intro a x hx
    rcases List.mem_cons.mp hx with rfl | hx
    · exact le_trans (le_max_right a x) (foldlMax_init_le u (max a x))
    · exact ih (max a b) x hx

theorem listMinQ_le (l : List ℚ) (x : ℚ) (hx : x ∈ l) : listMinQ l ≤ x := by
  cases l with
  | nil => cases hx
  | cons a t =>
    rcases List.mem_cons.mp hx with rfl | hx
    · exact foldlMin_le_init t x
    · exact foldlMin_le_mem t a x hx

theorem le_listMaxQ (l : List ℚ) (x : ℚ) (hx : x ∈ l) : x ≤ listMaxQ l := by
  cases l with
  | nil => cases hx
  | cons a t =>
    rcases List.mem_cons.mp hx with rfl | hx
    · exact foldlMax_init_le t x
    · exact foldlMax_mem_le t a x hx

theorem all_eq_of_min_eq_max (l : List ℚ) (h : listMinQ l = listMaxQ l) :
    ∀ x ∈ l, x = listMinQ l := by
  intro x hx
  refine le_antisymm ?_ (listMinQ_le l x hx)
  rw [h]
  exact le_listMaxQ l x hx

theorem min_ne_max_of_distinct (l : List ℚ) (a b : ℚ) (ha : a ∈ l) (hb : b ∈ l)
    (hab : a ≠ b) : listMinQ l ≠ listMaxQ l := by
  intro h
  exact hab ((all_eq_of_min_eq_max l h a ha).trans (all_eq_of_min_eq_max l h b hb).symm)

theorem quantileLinear_const (xs : List ℚ) (c q : ℚ) (hne : xs ≠ [])
    (hall : ∀ x ∈ xs, x = c) (h0 : 0 ≤ q) (h1 : q ≤ 1) :
    quantileLinear xs q = c := by
  have hlen : (xs.insertionSort (· ≤ ·)).length = xs.length :=
    List.length_insertionSort _ _
  have hsne : (xs.insertionSort (· ≤ ·)).length ≠ 0 := by
    rw [hlen]
    intro h
    exact hne (List.length_eq_zero.mp h)
  have hmem : ∀ x ∈ xs.insertionSort (· ≤ ·), x = c := fun x hx =>
    hall x ((List.perm_insertionSort _ _).mem_iff.mp hx)
  have hm1 : 1 ≤ (xs.insertionSort (· ≤ ·)).length := Nat.one_le_iff_ne_zero.mpr hsne
  simp only [quantileLinear]
  rw [if_neg hsne]
  set s := xs.insertionSort (· ≤ ·) with hs
  set h : ℚ := q * ((s.length : ℚ) - 1) with hh
  have hh0 : 0 ≤ h := by
    apply mul_nonneg h0
    have : (1 : ℚ) ≤ (s.length : ℚ) := by exact_mod_cast hm1
    linarith
  have hhub : h ≤ (s.length : ℚ) - 1 := by
    have hb : (0 : ℚ) ≤ (s.length : ℚ) - 1 := by
      have : (1 : ℚ) ≤ (s.length : ℚ) := by exact_mod_cast hm1
      linarith
    calc h = q * ((s.length : ℚ) - 1) := hh
      _ ≤ 1 * ((s.length : ℚ) - 1) := by
          exact mul_le_mul_of_nonneg_right h1 hb
      _ = (s.length : ℚ) - 1 := one_mul _
  have hfl0 : 0 ≤ ⌊h⌋ := Int.floor_nonneg.mpr hh0
  have hflub : ⌊h⌋ ≤ (s.length : ℤ) - 1 := by
    have : ((s.length : ℤ) - 1 : ℚ) = (s.length : ℚ) - 1 := by push_cast; ring
    have h2 : ⌊h⌋ ≤ ⌊(((s.length : ℤ) - 1 : ℤ) : ℚ)⌋ := by
      apply Int.floor_le_floor
      rw [show ((((s.length : ℤ) - 1 : ℤ)) : ℚ) = (s.length : ℚ) - 1 by push_cast; ring]
      exact hhub
    rwa [Int.floor_intCast] at h2
  have hlolt : (⌊h⌋).toNat < s.length := by omega
  have hvlo : s.getD (⌊h⌋).toNat 0 = c := by
    rw [List.getD_eq_getElem?_getD, List.getElem?_eq_getElem hlolt]
    exact hmem _ (List.getElem_mem hlolt)
  have hvhi : s.getD ((⌊h⌋).toNat + 1) (s.getD (⌊h⌋).toNat 0) = c := by
    rcases lt_or_ge ((⌊h⌋).toNat + 1) s.length with hlt | hge
    · rw [List.getD_eq_getElem?_getD, List.getElem?_eq_getElem hlt]
      exact hmem _ (List.getElem_mem hlt)
    · rw [List.getD_eq_getElem?_getD, List.getElem?_eq_none hge]
      exact hvlo
  rw [hvhi, hvlo]
  ring

theorem presentPrices_nil : presentPrices ([] : List (Option ℚ)) = [] := rfl

/-- C1: for a non-empty collection with at least two distinct prices the
segmenter computes the 0.25/0.75 price quantiles (linear interpolation) and
assigns low/medium/high by those thresholds, with the undetermined label
reserved for missing prices; when the two quantiles coincide it falls back to
the midpoint of min and max price, assigning low strictly below the midpoint
and high at or above it, with no medium bucket; when min equals max every
record gets the medium label; the empty input is returned unchanged. -/
theorem c1_price_segment_cascade (ps : List (Option ℚ)) :
    (ps = [] → categorizeSegments ps = []) ∧
    ((∃ a ∈ presentPrices ps, ∃ b ∈ presentPrices ps, a ≠ b) →
      (quantileLinear (presentPrices ps) (1 / 4) ≠
          quantileLinear (presentPrices ps) (3 / 4) →
        categorizeSegments ps = ps.map fun p? =>
          match p? with
          | none => Segment.khongXacDinh
          | some p =>
            if p ≤ quantileLinear (presentPrices ps) (1 / 4) then Segment.thap
            else if p ≤ quantileLinear (presentPrices ps) (3 / 4) then Segment.trungBinh
            else Segment.cao) ∧
      (quantileLinear (presentPrices ps) (1 / 4) =
          quantileLinear (presentPrices ps) (3 / 4) →
        List.Forall₂ (fun p? s =>
          (∀ p : ℚ, p? = some p →
            s = if p < (listMinQ (presentPrices ps) + listMaxQ (presentPrices ps)) / 2
              then Segment.thap else Segment.cao) ∧
          s ≠ Segment.trungBinh) ps (categorizeSegments ps))) ∧
    (presentPrices ps ≠ [] →
      listMinQ (presentPrices ps) = listMaxQ (presentPrices ps) →
      categorizeSegments ps = ps.map fun _ => Segment.trungBinh) ∧
    List.Forall₂ (fun p? s => s = Segment.khongXacDinh → p? = none) ps
      (categorizeSegments ps) := by
  refine ⟨?_, ?_, ?_, ?_⟩
  · rintro rfl
    rfl
  · rintro ⟨a, ha, b, hb, hab⟩
    have hpres : presentPrices ps ≠ [] := List.ne_nil_of_mem ha
    have hisE : ¬((presentPrices ps).isEmpty = true) := by
      simpa [List.isEmpty_iff] using hpres
    constructor
    · intro hq
      unfold categorizeSegments
      rw [if_neg hisE, if_neg hq]
    · intro hq
      have hmm : listMinQ (presentPrices ps) ≠ listMaxQ (presentPrices ps) :=
        min_ne_max_of_distinct _ a b ha hb hab
      unfold categorizeSegments
      rw [if_neg hisE, if_pos hq, if_neg hmm]
      refine List.forall₂_map_right_iff.mpr (List.forall₂_same.mpr ?_)
      intro p? _
      cases p? with
      | none =>
        exact And.intro (fun p hp => nomatch hp) (fun h => nomatch h)
      | some p =>
        dsimp only
        constructor
        · intro p' hp'
          injection hp' with h
          subst h
          rfl
        · split <;> decide
  · intro hpres hmm
    have hisE : ¬((presentPrices ps).isEmpty = true) := by
      simpa [List.isEmpty_iff] using hpres
    have hall := all_eq_of_min_eq_max _ hmm
    have hq25 : quantileLinear (presentPrices ps) (1 / 4) = listMinQ (presentPrices ps) :=
      quantileLinear_const _ _ _ hpres hall (by norm_num) (by norm_num)
    have hq75 : quantileLinear (presentPrices ps) (3 / 4) = listMinQ (presentPrices ps) :=
      quantileLinear_const _ _ _ hpres hall (by norm_num) (by norm_num)
    unfold categorizeSegments
    rw [if_neg hisE, if_pos (hq25.trans hq75.symm), if_pos hmm]
  · by_cases hE : (presentPrices ps).isEmpty = true
    · have hnil : presentPrices ps = [] := by simpa [List.isEmpty_iff] using hE
      have hnone : ∀ x ∈ ps, x = none := by
        intro x hx
        exact List.filterMap_eq_nil_iff.mp hnil x hx
      unfold categorizeSegments
      rw [if_pos hE]
      refine List.forall₂_map_right_iff.mpr (List.forall₂_same.mpr ?_)
      intro x hx
      intro _
      exact hnone x hx
    · by_cases hq : quantileLinear (presentPrices ps) (1 / 4) =
          quantileLinear (presentPrices ps) (3 / 4)
      · by_cases hmm : listMinQ (presentPrices ps) = listMaxQ (presentPrices ps)
        · unfold categorizeSegments
          rw [if_neg hE, if_pos hq, if_pos hmm]
          refine List.forall₂_map_right_iff.mpr (List.forall₂_same.mpr ?_)
          intro x _
          intro h
          exact absurd h (by decide)
        · unfold categorizeSegments
          rw [if_neg hE, if_pos hq, if_neg hmm]
          refine List.forall₂_map_right_iff.mpr (List.forall₂_same.mpr ?_)
          intro x _
          cases x with
          | none =>
            dsimp only
            intro h
            exact absurd h (by decide)
          | some p =>
            dsimp only
            split <;> (intro h; exact absurd h (by decide))
      · unfold categorizeSegments
        rw [if_neg hE, if_neg hq]
        refine List.forall₂_map_right_iff.mpr (List.forall₂_same.mpr ?_)
        intro x _
        cases x with
        | none =>
          dsimp only
          intro _
          rfl
        | some p =>
          dsimp only
          intro h
          split at h
          · exact absurd h (by decide)
          · split at h
            · exact absurd h (by decide)
            · exact absurd h (by decide)

theorem c1ps_q25 : quantileLinear (presentPrices c1ps) (1 / 4) = 7 / 4 := by
  with_unfolding_all rfl

theorem c1ps_q75 : quantileLinear (presentPrices c1ps) (3 / 4) = 13 / 4 := by
  with_unfolding_all rfl

/-- Witness for C1: the frame with prices 1, 2, 3, 4 has distinct quantiles
1.75 and 3.25 and is segmented by thresholds. -/
theorem c1_price_segment_cascade_witness :
    (∃ a ∈ presentPrices c1ps, ∃ b ∈ presentPrices c1ps, a ≠ b) ∧
    quantileLinear (presentPrices c1ps) (1 / 4) ≠
      quantileLinear (presentPrices c1ps) (3 / 4) ∧
    categorizeSegments c1ps = c1ps.map fun p? =>
      match p? with
      | none => Segment.khongXacDinh
      | some p =>
        if p ≤ quantileLinear (presentPrices c1ps) (1 / 4) then Segment.thap
        else if p ≤ quantileLinear (presentPrices c1ps) (3 / 4) then Segment.trungBinh
        else Segment.cao := by
  have hq : quantileLinear (presentPrices c1ps) (1 / 4) ≠
      quantileLinear (presentPrices c1ps) (3 / 4) := by
    rw [c1ps_q25, c1ps_q75]
    norm_num
  refine ⟨by decide, hq, ?_⟩
  exact ((c1_price_segment_cascade c1ps).2.1 (by decide)).1 hq

theorem map_segment_mk (l : List Segment) (g : Segment → SegStats)
    (hg : ∀ s, (g s).segment = s) :
    (l.map g).map (fun st => st.segment) = l := by
  induction l with
  | nil => rfl
  | cons k t ih => simp [hg, ih]

theorem segSum_cons (r : Row) (t : List Row) (f : Row → Int) (s : Segment) :
    segSum (r :: t) f s =
      if r.segment = s then f r + segSum t f s else segSum t f s := by
  unfold segSum
  rw [List.filter_cons]
  by_cases h : r.segment = s
  · simp [h]
  · simp [h]

theorem sum_segSum_sorted (df : List Row) (f : Row → Int) :
    (sortedSegments.map (segSum df f)).sum = (df.map f).sum := by
  induction df with
  | nil => simp [sortedSegments, segSum]
  | cons r t ih =>
    simp only [sortedSegments, List.map_cons, List.map_nil, List.sum_cons,
      List.sum_nil] at ih ⊢
    rw [segSum_cons, segSum_cons, segSum_cons, segSum_cons]
    cases hseg : r.segment <;> simp [hseg] <;> omega

theorem sum_filter_of_zero (keys : List Segment) (p : Segment → Bool) (g : Segment → Int)
    (h : ∀ s ∈ keys, p s = false → g s = 0) :
    ((keys.filter p).map g).sum = (keys.map g).sum := by
  induction keys with
  | nil => rfl
  | cons k t ih =>
    rw [List.filter_cons]
    by_cases hp : p k = true
    · rw [if_pos hp]
      simp only [List.map_cons, List.sum_cons]
      rw [ih fun s hs hf => h s (List.mem_cons_of_mem _ hs) hf]
    · rw [if_neg hp]
      simp only [List.map_cons, List.sum_cons]
      rw [ih fun s hs hf => h s (List.mem_cons_of_mem _ hs) hf,
        h k (List.mem_cons_self _ _) (by simpa using hp)]
      omega

theorem groupKeys_total (df : List Row) (f : Row → Int) :
    ((groupKeys df).map (segSum df f)).sum = (df.map f).sum := by
  unfold groupKeys
  rw [sum_filter_of_zero, sum_segSum_sorted]
  intro s _ hfalse
  unfold segSum
  have hnil : df.filter (fun r => decide (r.segment = s)) = [] := by
    rw [List.filter_eq_nil_iff]
    intro a ha
    rw [List.any_eq_false] at hfalse
    simpa using hfalse a ha
  rw [hnil]
  rfl

/-- C2 counterexample: a frame with only a low-segment and a high-segment row
rolls up to two rows, ordered high before low (the pandas sorted label
order), not to the three fixed rows low, medium, high. -/
theorem c2_rollup_counterexample :
    (calculate_segment_analysis c2df Mode.banHang).map (fun st => st.segment) =
      [Segment.cao, Segment.thap] ∧
    [Segment.cao, Segment.thap] ≠ [Segment.thap, Segment.trungBinh, Segment.cao] := by
  constructor
  · with_unfolding_all rfl
  · decide

/-- C2 amended: the rollup emits one row per segment label present in the
input, in pandas' sorted label order (high, undetermined, low, medium by the
Vietnamese label strings) — absent labels are omitted, not zero-filled; for
each emitted row and either mode, the two sums are the per-segment sums of
the mode's metrics and each percentage equals the segment value divided by
the whole-frame total times 100 when that total is positive, and 0
otherwise. -/
theorem c2_rollup_groups (df : List Row) (mode : Mode) :
    ((calculate_segment_analysis df mode).map (fun st => st.segment) =
      sortedSegments.filter fun s => df.any fun r => decide (r.segment = s)) ∧
    (∀ st ∈ calculate_segment_analysis df mode,
      st.revenue =
        ((df.filter fun r => decide (r.segment = st.segment)).map (modeRevenue mode)).sum ∧
      st.quantity_sold =
        ((df.filter fun r => decide (r.segment = st.segment)).map (modeQuantity mode)).sum ∧
      st.revenue_pct = (if 0 < (df.map (modeRevenue mode)).sum
        then (st.revenue : ℚ) / ((df.map (modeRevenue mode)).sum : ℚ) * 100 else 0) ∧
      st.quantity_pct = (if 0 < (df.map (modeQuantity mode)).sum
        then (st.quantity_sold : ℚ) / ((df.map (modeQuantity mode)).sum : ℚ) * 100 else 0)) := by
  by_cases hE : df.isEmpty = true
  · have hdf : df = [] := by simpa [List.isEmpty_iff] using hE
    subst hdf
    constructor
    · rfl
    · intro st hst
      exact absurd hst (List.not_mem_nil st)
  · constructor
    · unfold calculate_segment_analysis
      rw [if_neg hE]
      rw [map_segment_mk]
      · rfl
      · intro s
        rfl
    · intro st hst
      unfold calculate_segment_analysis at hst
      rw [if_neg hE] at hst
      obtain ⟨s, hs, rfl⟩ := List.mem_map.mp hst
      refine ⟨rfl, rfl, ?_, ?_⟩
      · dsimp only
        rw [groupKeys_total df (modeRevenue mode)]
      · dsimp only
        rw [groupKeys_total df (modeQuantity mode)]

theorem c2calc_eval : calculate_segment_analysis c2df Mode.banHang =
    [⟨Segment.cao, 90000, 10, 1800 / 19, 200 / 3⟩,
     ⟨Segment.thap, 5000, 5, 100 / 19, 100 / 3⟩] := by
  have hkeys : groupKeys c2df = [Segment.cao, Segment.thap] := by decide
  unfold calculate_segment_analysis
  rw [if_neg (by decide), hkeys]
  have h1 : segSum c2df (modeRevenue Mode.banHang) Segment.cao = 90000 := by decide
  have h2 : segSum c2df (modeRevenue Mode.banHang) Segment.thap = 5000 := by decide
  have h3 : segSum c2df (modeQuantity Mode.banHang) Segment.cao = 10 := by decide
  have h4 : segSum c2df (modeQuantity Mode.banHang) Segment.thap = 5 := by decide
  simp only [List.map_cons, List.map_nil, List.sum_cons, List.sum_nil, h1, h2, h3, h4]
  norm_num

/-- Witness for the amended C2 at the two-row frame. -/
theorem c2_rollup_groups_witness :
    c2stat ∈ calculate_segment_analysis c2df Mode.banHang ∧
    (c2stat.revenue =
      ((c2df.filter fun r => decide (r.segment = c2stat.segment)).map
        (modeRevenue Mode.banHang)).sum ∧
    c2stat.quantity_sold =
      ((c2df.filter fun r => decide (r.segment = c2stat.segment)).map
        (modeQuantity Mode.banHang)).sum ∧
    c2stat.revenue_pct = (if 0 < (c2df.map (modeRevenue Mode.banHang)).sum
      then (c2stat.revenue : ℚ) / ((c2df.map (modeRevenue Mode.banHang)).sum : ℚ) * 100
      else 0) ∧
    c2stat.quantity_pct = (if 0 < (c2df.map (modeQuantity Mode.banHang)).sum
      then (c2stat.quantity_sold : ℚ) / ((c2df.map (modeQuantity Mode.banHang)).sum : ℚ) * 100
      else 0)) := by
  have hm : c2stat ∈ calculate_segment_analysis c2df Mode.banHang := by
    rw [c2calc_eval]
    exact List.mem_cons_self _ _
  exact ⟨hm, (c2_rollup_groups c2df Mode.banHang).2 c2stat hm⟩

theorem processDoc_accepted (doc : RawDoc) (p : ℚ) (hp : doc.price = some p)
    (hacc : 0 < p ∧ p < 1000000000) :
    processDoc doc = some ⟨doc.id, doc.name, doc.category, max 1000 (mongoRound p),
      doc.promotion, max 0 (sumDec (doc.stock_history.take 100)),
      max 1000 (mongoRound p) * max 0 (sumDec (doc.stock_history.take 100)),
      max 0 (sumInc (doc.stock_history.take 100)),
      max 1000 (mongoRound p) * max 0 (sumInc (doc.stock_history.take 100)),
      (doc.stock_history.take 100).take 50⟩ := by
  unfold processDoc
  rw [hp]
  exact if_pos hacc

theorem processDoc_rejected_none (doc : RawDoc) (hp : doc.price = none) :
    processDoc doc = none := by
  unfold processDoc
  rw [hp]

theorem processDoc_rejected_range (doc : RawDoc) (p : ℚ) (hp : doc.price = some p)
    (hacc : ¬(0 < p ∧ p < 1000000000)) : processDoc doc = none := by
  unfold processDoc
  rw [hp]
  exact if_neg hacc

theorem processDoc_fields (doc : RawDoc) (r : LoadedRecord) (h : processDoc doc = some r) :
    r.total_sold = sumDec (doc.stock_history.take 100) ∧
    r.total_stock_increased = sumInc (doc.stock_history.take 100) ∧
    r.revenue = r.price * r.total_sold ∧
    r.stock_revenue = r.price * r.total_stock_increased ∧
    r.stock_history = doc.stock_history.take 50 ∧
    1000 ≤ r.price := by
  obtain ⟨p, hp, hacc, rfl⟩ := processDoc_spine doc r h
  refine ⟨max_eq_right (sumDec_nonneg _), max_eq_right (sumInc_nonneg _), rfl, rfl, ?_,
    le_max_left 1000 _⟩
  show (doc.stock_history.take 100).take 50 = doc.stock_history.take 50
  simp [List.take_take]

/-- C3 counterexample: a document with 101 one-unit sale events derives a
total of 100, not the 101 that summing over all its events gives. -/
theorem c3_counterexample :
    (processDoc c3doc).map (fun r => r.total_sold) = some 100 ∧
    sumDec c3doc.stock_history = 101 := by
  have hrep : ∀ n : ℕ, sumDec (List.replicate n ⟨"", some 1, some 0⟩) = n := by
    intro n
    induction n with
    | zero => rfl
    | succ k ih =>
      rw [List.replicate_succ, sumDec_cons, ih]
      show max 0 1 + (k : ℤ) = ((k + 1 : ℕ) : ℤ)
      push_cast
      omega
  constructor
  · have h := processDoc_accepted c3doc 1000 rfl (by norm_num)
    rw [h]
    show some (max 0 (sumDec ((List.replicate 101
      (⟨"", some 1, some 0⟩ : StockEvent)).take 100))) = some 100
    rw [List.take_replicate]
    norm_num [hrep]
  · show sumDec (List.replicate 101 (⟨"", some 1, some 0⟩ : StockEvent)) = 101
    rw [hrep]
    norm_num

/-- C3 amended: for every record built by the load, totalSold is the sum of
clamped unitsSold over the first 100 events (events beyond the slice are
ignored), totalRestocked likewise, revenue = price × totalSold, stockRevenue =
price × totalRestocked, and the four derived values are non-negative
integers. -/
theorem c3_derived_metrics (doc : RawDoc) (r : LoadedRecord)
    (h : processDoc doc = some r) :
    r.total_sold = sumDec (doc.stock_history.take 100) ∧
    r.total_stock_increased = sumInc (doc.stock_history.take 100) ∧
    r.revenue = r.price * r.total_sold ∧
    r.stock_revenue = r.price * r.total_stock_increased ∧
    0 ≤ r.total_sold ∧ 0 ≤ r.total_stock_increased ∧ 0 ≤ r.revenue ∧
    0 ≤ r.stock_revenue := by
  obtain ⟨hts, hti, hrev, hsrev, _, hprice⟩ := processDoc_fields doc r h
  have h0 : (0 : ℤ) ≤ r.price := le_trans (by norm_num) hprice
  have hts0 : 0 ≤ r.total_sold := by rw [hts]; exact sumDec_nonneg _
  have hti0 : 0 ≤ r.total_stock_increased := by rw [hti]; exact sumInc_nonneg _
  exact ⟨hts, hti, hrev, hsrev, hts0, hti0,
    by rw [hrev]; exact mul_nonneg h0 hts0,
    by rw [hsrev]; exact mul_nonneg h0 hti0⟩

/-- Witness for the amended C3 at a one-event document. -/
theorem c3_derived_metrics_witness :
    processDoc c3wdoc = some c3wrec ∧
    (c3wrec.total_sold = sumDec (c3wdoc.stock_history.take 100) ∧
    c3wrec.total_stock_increased = sumInc (c3wdoc.stock_history.take 100) ∧
    c3wrec.revenue = c3wrec.price * c3wrec.total_sold ∧
    c3wrec.stock_revenue = c3wrec.price * c3wrec.total_stock_increased ∧
    0 ≤ c3wrec.total_sold ∧ 0 ≤ c3wrec.total_stock_increased ∧
    0 ≤ c3wrec.revenue ∧ 0 ≤ c3wrec.stock_revenue) := by
  have h : processDoc c3wdoc = some c3wrec := by with_unfolding_all rfl
  exact ⟨h, c3_derived_metrics c3wdoc c3wrec h⟩

/-- C4 counterexample: the spec's own example event, date "2025-13-40" with
three units sold, is not dropped from derivation — it contributes 3 to the
derived total instead of 0. -/
theorem c4_counterexample :
    parseDate "2025-13-40" = none ∧
    (processDoc c4doc).map (fun r => r.total_sold) = some 3 := by
  constructor
  · decide
  · with_unfolding_all rfl

/-- C4 amended: an event with an unparseable date is ignored by the global
min/max date tracking, but its clamped quantities still contribute to the
derived totals — derivation never looks at dates. -/
theorem c4_bad_date_tracking (doc : RawDoc) (ev : StockEvent)
    (hbad : parseDate ev.date = none) (hlen : doc.stock_history.length < 50) :
    (processDoc { doc with stock_history := ev :: doc.stock_history }).map
        (fun r => r.total_sold) =
      (processDoc doc).map (fun r => clampDec ev + r.total_sold) ∧
    (processDoc { doc with stock_history := ev :: doc.stock_history }).map
        (fun r => r.total_stock_increased) =
      (processDoc doc).map (fun r => clampInc ev + r.total_stock_increased) ∧
    trackedDates [{ doc with stock_history := ev :: doc.stock_history }] =
      trackedDates [doc] := by
  obtain ⟨i, nm, cat, pr, promo, hist⟩ := doc
  have hlen' : hist.length < 50 := hlen
  cases pr with
  | none =>
    refine ⟨?_, ?_, ?_⟩ <;> simp [processDoc, trackedDates]
  | some p =>
    by_cases hacc : 0 < p ∧ p < 1000000000
    · have htk : hist.take 100 = hist := List.take_of_length_le (by omega)
      have htk' : (ev :: hist).take 100 = ev :: hist :=
        List.take_of_length_le (by simp; omega)
      have e2 : hist.take 50 = hist := List.take_of_length_le (by omega)
      have e1 : (ev :: hist).take 50 = ev :: hist :=
        List.take_of_length_le (by simp; omega)
      have m1 : max 0 (sumDec hist) = sumDec hist := max_eq_right (sumDec_nonneg _)
      have m2 : max 0 (clampDec ev + sumDec hist) = clampDec ev + sumDec hist :=
        max_eq_right (add_nonneg (clampDec_nonneg _) (sumDec_nonneg _))
      have m3 : max 0 (sumInc hist) = sumInc hist := max_eq_right (sumInc_nonneg _)
      have m4 : max 0 (clampInc ev + sumInc hist) = clampInc ev + sumInc hist :=
        max_eq_right (add_nonneg (clampInc_nonneg _) (sumInc_nonneg _))
      refine ⟨?_, ?_, ?_⟩
      · simp [processDoc, hacc, htk, htk', sumDec_cons, m1, m2]
      · simp [processDoc, hacc, htk, htk', sumInc_cons, m3, m4]
      · simp [trackedDates, processDoc, hacc, htk, htk', e1, e2, hbad]
    · refine ⟨?_, ?_, ?_⟩ <;> simp [processDoc, trackedDates, hacc]

/-- Witness for the amended C4 at a concrete document and bad-date event. -/
theorem c4_bad_date_tracking_witness :
    parseDate c4wev.date = none ∧ c4wdoc.stock_history.length < 50 ∧
    ((processDoc { c4wdoc with stock_history := c4wev :: c4wdoc.stock_history }).map
        (fun r => r.total_sold) =
      (processDoc c4wdoc).map (fun r => clampDec c4wev + r.total_sold) ∧
    (processDoc { c4wdoc with stock_history := c4wev :: c4wdoc.stock_history }).map
        (fun r => r.total_stock_increased) =
      (processDoc c4wdoc).map (fun r => clampInc c4wev + r.total_stock_increased) ∧
    trackedDates [{ c4wdoc with stock_history := c4wev :: c4wdoc.stock_history }] =
      trackedDates [c4wdoc]) := by
  refine ⟨by decide, by decide, ?_⟩
  exact c4_bad_date_tracking c4wdoc c4wev (by decide) (by decide)

/-- C10: derivation totals are computed over at most the first 100 events of
the raw stock history (the aggregation `$slice`), while the retained
movementHistory that later filtering operates on is the first 50 events;
everything beyond those prefixes is ignored. -/
theorem c10_event_truncation (doc : RawDoc) (r : LoadedRecord)
    (h : processDoc doc = some r) :
    r.total_sold = sumDec (doc.stock_history.take 100) ∧
    r.total_stock_increased = sumInc (doc.stock_history.take 100) ∧
    r.revenue = r.price * sumDec (doc.stock_history.take 100) ∧
    r.stock_revenue = r.price * sumInc (doc.stock_history.take 100) ∧
    r.stock_history = doc.stock_history.take 50 := by
  obtain ⟨hts, hti, hrev, hsrev, hsh, _⟩ := processDoc_fields doc r h
  exact ⟨hts, hti, by rw [hrev, hts], by rw [hsrev, hti], hsh⟩

/-- Witness for C10 at a two-event document with a missing and a negative
quantity. -/
theorem c10_event_truncation_witness :
    processDoc c10doc = some c10rec ∧
    (c10rec.total_sold = sumDec (c10doc.stock_history.take 100) ∧
    c10rec.total_stock_increased = sumInc (c10doc.stock_history.take 100) ∧
    c10rec.revenue = c10rec.price * sumDec (c10doc.stock_history.take 100) ∧
    c10rec.stock_revenue = c10rec.price * sumInc (c10doc.stock_history.take 100) ∧
    c10rec.stock_history = c10doc.stock_history.take 50) := by
  have h : processDoc c10doc = some c10rec := by with_unfolding_all rfl
  exact ⟨h, c10_event_truncation c10doc c10rec h⟩

/-- C9 counterexample: a failing source yields exactly the same return value
as a successful load of an empty collection, so no distinct failure reaches
the caller. -/
theorem c9_counterexample :
    load_data_optimized (Except.error "connection failed") =
      load_data_optimized (Except.ok []) := rfl

/-- C9 amended: on a source failure `load_data_optimized` catches the
exception (reporting it only to the UI) and returns the normal empty frame
with the default window of 2025-03-05 to 2025-05-25, indistinguishable from a
successful empty load. -/
theorem c9_error_swallowed (msg : String) :
    load_data_optimized (Except.error msg) = ⟨[], defaultMinDate, defaultMaxDate⟩ := rfl

theorem filter_by_date_eq_map (df : List Row) (s e : Date) :
    filter_by_date_range_optimized df s e = df.map (recalcRow s e) := by
  unfold filter_by_date_range_optimized
  by_cases hE : df.isEmpty = true
  · have hdf : df = [] := by simpa [List.isEmpty_iff] using hE
    subst hdf
    rfl
  · rw [if_neg hE]

/-- C5: for every working row and closed window, the date filter keeps exactly
the events whose date parses into the window and recomputes the four derived
metrics from that restricted history with the derivation's clamping; an empty
restricted history gives all-zero metrics rather than an error. -/
theorem c5_date_filter (df : List Row) (s e : Date) (_hse : s.key ≤ e.key) :
    List.Forall₂ (fun r r' =>
      r'.stock_history = r.stock_history.filter (eventInRange s e) ∧
      r'.quantity_sold = sumDec (r.stock_history.filter (eventInRange s e)) ∧
      r'.stock_remaining = sumInc (r.stock_history.filter (eventInRange s e)) ∧
      r'.revenue = r.price * sumDec (r.stock_history.filter (eventInRange s e)) ∧
      r'.stock_revenue = r.price * sumInc (r.stock_history.filter (eventInRange s e)) ∧
      (r.stock_history.filter (eventInRange s e) = [] →
        r'.stock_history = [] ∧ r'.quantity_sold = 0 ∧ r'.stock_remaining = 0 ∧
        r'.revenue = 0 ∧ r'.stock_revenue = 0))
      df (filter_by_date_range_optimized df s e) := by
  rw [filter_by_date_eq_map]
  refine List.forall₂_map_right_iff.mpr (List.forall₂_same.mpr ?_)
  intro r _
  refine ⟨rfl, rfl, rfl, rfl, rfl, ?_⟩
  intro hnil
  have hh : filter_stock_history s e r.stock_history = [] := hnil
  refine ⟨hh, ?_, ?_, ?_, ?_⟩
  · show sumDec (filter_stock_history s e r.stock_history) = 0
    rw [hh]
    rfl
  · show sumInc (filter_stock_history s e r.stock_history) = 0
    rw [hh]
    rfl
  · show r.price * sumDec (filter_stock_history s e r.stock_history) = 0
    rw [hh]
    simp [sumDec]
  · show r.price * sumInc (filter_stock_history s e r.stock_history) = 0
    rw [hh]
    simp [sumInc]

/-- Witness for C5 at a one-row frame and the March 2025 window. -/
theorem c5_date_filter_witness :
    c5start.key ≤ c5stop.key ∧
    List.Forall₂ (fun r r' =>
      r'.stock_history = r.stock_history.filter (eventInRange c5start c5stop) ∧
      r'.quantity_sold = sumDec (r.stock_history.filter (eventInRange c5start c5stop)) ∧
      r'.stock_remaining = sumInc (r.stock_history.filter (eventInRange c5start c5stop)) ∧
      r'.revenue = r.price * sumDec (r.stock_history.filter (eventInRange c5start c5stop)) ∧
      r'.stock_revenue =
        r.price * sumInc (r.stock_history.filter (eventInRange c5start c5stop)) ∧
      (r.stock_history.filter (eventInRange c5start c5stop) = [] →
        r'.stock_history = [] ∧ r'.quantity_sold = 0 ∧ r'.stock_remaining = 0 ∧
        r'.revenue = 0 ∧ r'.stock_revenue = 0))
      [c5row] (filter_by_date_range_optimized [c5row] c5start c5stop) :=
  ⟨by decide, c5_date_filter [c5row] c5start c5stop (by decide)⟩

/-- C7: applying the date filter twice with the same window equals applying it
once, both in the retained histories and in the recomputed metrics. -/
theorem c7_filter_idempotent (df : List Row) (s e : Date) :
    filter_by_date_range_optimized (filter_by_date_range_optimized df s e) s e =
      filter_by_date_range_optimized df s e := by
  rw [filter_by_date_eq_map, filter_by_date_eq_map, List.map_map]
  apply List.map_congr_left
  intro r _
  obtain ⟨i, nm, cat, pr, promo, ts, rev, tsi, srev, hist, qs, sr, seg⟩ := r
  simp [recalcRow, filter_stock_history, List.filter_filter, Function.comp]

theorem categorizeSegments_length (ps : List (Option ℚ)) :
    (categorizeSegments ps).length = ps.length := by
  unfold categorizeSegments
  split
  · simp
  · split
    · split
      · simp
      · simp
    · simp

theorem forall₂_zipWith_segment (df : List Row) (segs : List Segment)
    (h : df.length = segs.length) :
    List.Forall₂ (fun a b => b.price = a.price) df
      (List.zipWith (fun r s => { r with segment := s }) df segs) := by
  induction df generalizing segs with
  | nil =>
    cases segs with
    | nil => exact List.Forall₂.nil
    | cons s u => simp at h
  | cons r t ih =>
    cases segs with
    | nil => simp at h
    | cons s u => exact List.Forall₂.cons rfl (ih u (by simpa using h))

/-- C8: every document accepted by the load yields an (integer) price of at
least 1000, and the later pipeline stages — clustering, date filtering and
re-segmentation — copy the price column unchanged. -/
theorem c8_price_floor :
    (∀ doc r, processDoc doc = some r → 1000 ≤ r.price) ∧
    (∀ recs : List LoadedRecord,
      List.Forall₂ (fun lr row => row.price = lr.price) recs
        (apply_clustering_improved recs)) ∧
    (∀ (df : List Row) (s e : Date),
      List.Forall₂ (fun a b => b.price = a.price) df
        (filter_by_date_range_optimized df s e)) ∧
    (∀ df : List Row,
      List.Forall₂ (fun a b => b.price = a.price) df (categorize_price_segment df)) := by
  refine ⟨?_, ?_, ?_, ?_⟩
  · intro doc r h
    exact (processDoc_fields doc r h).2.2.2.2.2
  · intro recs
    unfold apply_clustering_improved
    by_cases hE : recs.isEmpty = true
    · have hr : recs = [] := by simpa [List.isEmpty_iff] using hE
      subst hr
      exact List.Forall₂.nil
    · rw [if_neg hE]
      split
      · refine List.forall₂_map_right_iff.mpr (List.forall₂_same.mpr ?_)
        intro lr _
        rfl
      · refine List.forall₂_map_right_iff.mpr (List.forall₂_same.mpr ?_)
        intro lr _
        rfl
  · intro df s e
    rw [filter_by_date_eq_map]
    refine List.forall₂_map_right_iff.mpr (List.forall₂_same.mpr ?_)
    intro r _
    rfl
  · intro df
    unfold categorize_price_segment
    apply forall₂_zipWith_segment
    rw [categorizeSegments_length, List.length_map]

/-- Witness for C8: the document priced 250 is floored to 1000. -/
theorem c8_price_floor_witness :
    processDoc c8doc = some c8rec ∧ 1000 ≤ c8rec.price := by
  have h : processDoc c8doc = some c8rec := by with_unfolding_all rfl
  exact ⟨h, c8_price_floor.1 c8doc c8rec h⟩

theorem minKeyDate_le (l : List Date) :
    ∀ d0 x : Date, x ∈ d0 :: l → (minKeyDate d0 l).key ≤ x.key := by
  induction l with
  | nil =>
    intro d0 x hx
    rcases List.mem_cons.mp hx with rfl | hx
    · exact le_refl _
    · cases hx
  | cons b t ih =>
    intro d0 x hx
    have hstep : minKeyDate d0 (b :: t) =
        minKeyDate (if b.key < d0.key then b else d0) t := rfl
    have hinit : (minKeyDate (if b.key < d0.key then b else d0) t).key ≤
        (if b.key < d0.key then b else d0).key :=
      ih _ _ (List.mem_cons_self _ _)
    rcases List.mem_cons.mp hx with rfl | hx
    · rw [hstep]
      refine le_trans hinit ?_
      split
      · omega
      · exact le_refl _
    · rcases List.mem_cons.mp hx with rfl | hx
      · rw [hstep]
        refine le_trans hinit ?_
        split
        · exact le_refl _
        · omega
      · rw [hstep]
        exact ih _ _ (List.mem_cons_of_mem _ hx)

theorem le_maxKeyDate (l : List Date) :
    ∀ d0 x : Date, x ∈ d0 :: l → x.key ≤ (maxKeyDate d0 l).key := by
  induction l with
  | nil =>
    intro d0 x hx
    rcases List.mem_cons.mp hx with rfl | hx
    · exact le_refl _
    · cases hx
  | cons b t ih =>
    intro d0 x hx
    have hstep : maxKeyDate d0 (b :: t) =
        maxKeyDate (if d0.key < b.key then b else d0) t := rfl
    have hinit : (if d0.key < b.key then b else d0).key ≤
        (maxKeyDate (if d0.key < b.key then b else d0) t).key :=
      ih _ _ (List.mem_cons_self _ _)
    rcases List.mem_cons.mp hx with rfl | hx
    · rw [hstep]
      refine le_trans ?_ hinit
      split
      · omega
      · exact le_refl _
    · rcases List.mem_cons.mp hx with rfl | hx
      · rw [hstep]
        refine le_trans ?_ hinit
        split
        · exact le_refl _
        · omega
      · rw [hstep]
        exact ih _ _ (List.mem_cons_of_mem _ hx)

theorem load_ok_records (docs : List RawDoc) :
    (load_data_optimized (Except.ok docs)).records = docs.filterMap processDoc := by
  cases htr : trackedDates docs <;> simp [load_data_optimized, htr]

theorem load_ok_bounds (docs : List RawDoc) (d : Date) (hd : d ∈ trackedDates docs) :
    (load_data_optimized (Except.ok docs)).min_date.key ≤ d.key ∧
    d.key ≤ (load_data_optimized (Except.ok docs)).max_date.key := by
  cases htr : trackedDates docs with
  | nil =>
    rw [htr] at hd
    cases hd
  | cons d0 ds =>
    rw [htr] at hd
    have hmin : (load_data_optimized (Except.ok docs)).min_date = minKeyDate d0 ds := by
      simp [load_data_optimized, htr]
    have hmax : (load_data_optimized (Except.ok docs)).max_date = maxKeyDate d0 ds := by
      simp [load_data_optimized, htr]
    rw [hmin, hmax]
    exact ⟨minKeyDate_le ds d0 d hd, le_maxKeyDate ds d0 d hd⟩

theorem mem_trackedDates (docs : List RawDoc) (doc : RawDoc) (r : LoadedRecord)
    (hdoc : doc ∈ docs) (hr : processDoc doc = some r) (ev : StockEvent) (d : Date)
    (hev : ev ∈ r.stock_history) (hd : parseDate ev.date = some d) :
    d ∈ trackedDates docs := by
  unfold trackedDates
  refine List.mem_flatMap.mpr ⟨doc, hdoc, ?_⟩
  rw [hr]
  exact List.mem_filterMap.mpr ⟨ev, hev, hd⟩

theorem apply_clustering_eq_map (df : List LoadedRecord) (h : ¬df.isEmpty = true) :
    ∃ f : LoadedRecord → Segment,
      apply_clustering_improved df = df.map fun lr => toRow lr (f lr) := by
  unfold apply_clustering_improved
  rw [if_neg h]
  split
  · exact ⟨_, rfl⟩
  · exact ⟨fun _ => Segment.trungBinh, rfl⟩

/-- C6 counterexample: for a collection whose single document has one
bad-date event selling 3 units and one good-date event selling 1 unit, the
unfiltered derivation gives totalSold 4 while filtering to the full
[globalMin, globalMax] window recomputes quantity 1. -/
theorem c6_counterexample :
    ((load_data_optimized (Except.ok c6docs)).records.map fun r => r.total_sold) = [4] ∧
    ((filter_by_date_range_optimized
        (apply_clustering_improved (load_data_optimized (Except.ok c6docs)).records)
        (load_data_optimized (Except.ok c6docs)).min_date
        (load_data_optimized (Except.ok c6docs)).max_date).map
      fun r => r.quantity_sold) = [1] := by
  constructor
  · with_unfolding_all rfl
  · set_option maxRecDepth 4000 in with_unfolding_all rfl

/-- C6 amended: filtering to the full [globalMin, globalMax] window preserves
the derived totals, provided every accepted document has at most 50 events
(so that derivation, tracking and the retained history see the same events)
and every event date parses. -/
theorem c6_full_window (docs : List RawDoc)
    (h : ∀ doc ∈ docs, (processDoc doc).isSome →
      doc.stock_history.length ≤ 50 ∧
      ∀ ev ∈ doc.stock_history, (parseDate ev.date).isSome) :
    List.Forall₂ (fun lr row =>
      row.quantity_sold = lr.total_sold ∧
      row.stock_remaining = lr.total_stock_increased ∧
      row.revenue = lr.revenue ∧
      row.stock_revenue = lr.stock_revenue)
      (load_data_optimized (Except.ok docs)).records
      (filter_by_date_range_optimized
        (apply_clustering_improved (load_data_optimized (Except.ok docs)).records)
        (load_data_optimized (Except.ok docs)).min_date
        (load_data_optimized (Except.ok docs)).max_date) := by
  by_cases hE : (load_data_optimized (Except.ok docs)).records.isEmpty = true
  · have h0 : (load_data_optimized (Except.ok docs)).records = [] := by
      simpa [List.isEmpty_iff] using hE
    rw [h0]
    exact List.Forall₂.nil
  · obtain ⟨segf, hcluster⟩ := apply_clustering_eq_map _ hE
    rw [hcluster, filter_by_date_eq_map, List.map_map]
    refine List.forall₂_map_right_iff.mpr (List.forall₂_same.mpr ?_)
    intro lr hlr
    rw [load_ok_records] at hlr
    obtain ⟨doc, hdoc, hpd⟩ := List.mem_filterMap.mp hlr
    obtain ⟨hlen, hpar⟩ := h doc hdoc (by rw [hpd]; rfl)
    obtain ⟨hts, hti, hrev, hsrev, hsh, hprice⟩ := processDoc_fields doc lr hpd
    have hsh' : lr.stock_history = doc.stock_history := by
      rw [hsh]
      exact List.take_of_length_le hlen
    have htk100 : doc.stock_history.take 100 = doc.stock_history :=
      List.take_of_length_le (le_trans hlen (by norm_num))
    have hkeep : filter_stock_history (load_data_optimized (Except.ok docs)).min_date
        (load_data_optimized (Except.ok docs)).max_date lr.stock_history =
        lr.stock_history := by
      unfold filter_stock_history
      apply List.filter_eq_self.mpr
      intro ev hev
      have hev' : ev ∈ doc.stock_history := hsh' ▸ hev
      obtain ⟨d, hd⟩ := Option.isSome_iff_exists.mp (hpar ev hev')
      have hmem := mem_trackedDates docs doc lr hdoc hpd ev d hev hd
      have hb := load_ok_bounds docs d hmem
      unfold eventInRange
      rw [hd]
      exact decide_eq_true ⟨hb.1, hb.2⟩
    refine ⟨?_, ?_, ?_, ?_⟩
    · show sumDec (filter_stock_history _ _ (toRow lr (segf lr)).stock_history) =
        lr.total_sold
      rw [show (toRow lr (segf lr)).stock_history = lr.stock_history from rfl,
        hkeep, hsh', hts, htk100]
    · show sumInc (filter_stock_history _ _ (toRow lr (segf lr)).stock_history) =
        lr.total_stock_increased
      rw [show (toRow lr (segf lr)).stock_history = lr.stock_history from rfl,
        hkeep, hsh', hti, htk100]
    · show (toRow lr (segf lr)).price *
        sumDec (filter_stock_history _ _ (toRow lr (segf lr)).stock_history) = lr.revenue
      rw [show (toRow lr (segf lr)).stock_history = lr.stock_history from rfl,
        show (toRow lr (segf lr)).price = lr.price from rfl,
        hkeep, hsh', hrev, hts, htk100]
    · show (toRow lr (segf lr)).price *
        sumInc (filter_stock_history _ _ (toRow lr (segf lr)).stock_history) =
        lr.stock_revenue
      rw [show (toRow lr (segf lr)).stock_history = lr.stock_history from rfl,
        show (toRow lr (segf lr)).price = lr.price from rfl,
        hkeep, hsh', hsrev, hti, htk100]

/-- Witness for the amended C6 at a one-document, one-event collection. -/
theorem c6_full_window_witness :
    (∀ doc ∈ c6wdocs, (processDoc doc).isSome →
      doc.stock_history.length ≤ 50 ∧
      ∀ ev ∈ doc.stock_history, (parseDate ev.date).isSome) ∧
    List.Forall₂ (fun lr row =>
      row.quantity_sold = lr.total_sold ∧
      row.stock_remaining = lr.total_stock_increased ∧
      row.revenue = lr.revenue ∧
      row.stock_revenue = lr.stock_revenue)
      (load_data_optimized (Except.ok c6wdocs)).records
      (filter_by_date_range_optimized
        (apply_clustering_improved (load_data_optimized (Except.ok c6wdocs)).records)
        (load_data_optimized (Except.ok c6wdocs)).min_date
        (load_data_optimized (Except.ok c6wdocs)).max_date) := by
  have hh : ∀ doc ∈ c6wdocs, (processDoc doc).isSome →
      doc.stock_history.length ≤ 50 ∧
      ∀ ev ∈ doc.stock_history, (parseDate ev.date).isSome := by
    with_unfolding_all decide
  exact ⟨hh, c6_full_window c6wdocs hh⟩

end CoffeeDashboard

